import Mathlib

/-!
Shallow embedding of src/backend/main.py, a catalog-and-cart FastAPI service.

Modelling conventions:
- Python dicts are association lists with unique keys kept in insertion order;
  the dict primitives used by the source (get, membership, item assignment,
  setdefault, pop) are defined below and mirror CPython semantics.
- Machine floats appear in the source only as product prices, which no claimed
  operation computes with, so prices are embedded as integer cents.
- difflib.SequenceMatcher is embedded exactly (longest-matching-block recursion
  with the autojunk popularity table and the end-extension loops); the float
  comparison ratio >= 0.4 is rendered as the exact rational comparison
  5 * M >= len(a) + len(b), see the comment at meetsCutoff.
- HTTPException outcomes are an explicit error type; the in-place mutation the
  handlers perform before an exception is kept (the mutated cart is written
  back even when the call fails), as in the source.
-/

namespace VapiDemo

/-! ### Python dict primitives over association lists -/

section Dict

variable {κ β : Type} [DecidableEq κ]

/-- Python `d.get(k)` / `d[k]`: the value stored at key `k`, if present. -/
def dictGet : List (κ × β) → κ → Option β
  | [], _ => none
  | kv :: rest, k => if kv.1 = k then some kv.2 else dictGet rest k

/-- Python `d[k] = v`: update the entry in place when the key is present,
otherwise append the new entry at the end (dicts keep insertion order). -/
def dictSet : List (κ × β) → κ → β → List (κ × β)
  | [], k, v => [(k, v)]
  | kv :: rest, k, v => if kv.1 = k then (k, v) :: rest else kv :: dictSet rest k v

/-- Python `d.pop(k, None)`: drop the entry at key `k`, if any. -/
def dictPop : List (κ × β) → κ → List (κ × β)
  | [], _ => []
  | kv :: rest, k => if kv.1 = k then rest else kv :: dictPop rest k

/-- Python `d.setdefault(k, v)`: insert `v` at `k` when the key is absent;
return the resulting dict together with the value now stored at `k`. -/
def dictSetdefault (d : List (κ × β)) (k : κ) (v : β) : List (κ × β) × β :=
  match dictGet d k with
  | some cur => (d, cur)
  | none => (d ++ [(k, v)], v)

theorem dictGet_mem {d : List (κ × β)} {k : κ} {v : β} (h : dictGet d k = some v) :
    (k, v) ∈ d := by
  induction d with
  | nil => simp [dictGet] at h
  | cons kv rest ih =>
    by_cases hk : kv.1 = k
    · simp only [dictGet, if_pos hk] at h
      injection h with h2
      subst h2
      subst hk
      exact List.mem_cons_self _ _
    · simp only [dictGet, if_neg hk] at h
      exact List.mem_cons_of_mem _ (ih h)

theorem dictGet_isSome_iff {d : List (κ × β)} {k : κ} :
    (dictGet d k).isSome ↔ k ∈ d.map Prod.fst := by
  induction d with
  | nil => simp [dictGet]
  | cons kv rest ih =>
    by_cases hk : kv.1 = k
    · simp [dictGet, hk]
    · simp [dictGet, hk, ih, Ne.symm hk]

theorem dictGet_eq_none_of_not_mem {d : List (κ × β)} {k : κ}
    (h : k ∉ d.map Prod.fst) : dictGet d k = none := by
  cases hd : dictGet d k with
  | none => rfl
  | some v =>
    exact absurd (dictGet_isSome_iff.mp (by simp [hd])) h

theorem dictGet_dictSet_self (d : List (κ × β)) (k : κ) (v : β) :
    dictGet (dictSet d k v) k = some v := by
  induction d with
  | nil => simp [dictSet, dictGet]
  | cons kv rest ih =>
    by_cases hk : kv.1 = k
    · simp [dictSet, hk, dictGet]
    · simp [dictSet, hk, dictGet, ih]

theorem mem_dictSet {d : List (κ × β)} {k : κ} {v : β} {pq : κ × β}
    (h : pq ∈ dictSet d k v) : pq ∈ d ∨ pq = (k, v) := by
  induction d with
  | nil => simp [dictSet] at h; simp [h]
  | cons kv rest ih =>
    by_cases hk : kv.1 = k
    · simp only [dictSet, if_pos hk] at h
      rcases List.mem_cons.mp h with h | h
      · exact Or.inr h
      · exact Or.inl (List.mem_cons_of_mem _ h)
    · simp only [dictSet, if_neg hk] at h
      rcases List.mem_cons.mp h with h | h
      · exact Or.inl (h ▸ List.mem_cons_self _ _)
      · rcases ih h with h' | h'
        · exact Or.inl (List.mem_cons_of_mem _ h')
        · exact Or.inr h'

theorem dictSet_of_get_none {d : List (κ × β)} {k : κ} (v : β)
    (h : dictGet d k = none) : dictSet d k v = d ++ [(k, v)] := by
  induction d with
  | nil => simp [dictSet]
  | cons kv rest ih =>
    by_cases hk : kv.1 = k
    · simp [dictGet, hk] at h
    · simp only [dictGet, if_neg hk] at h
      simp [dictSet, hk, ih h]

theorem mem_dictPop {d : List (κ × β)} {k : κ} {pq : κ × β}
    (h : pq ∈ dictPop d k) : pq ∈ d := by
  induction d with
  | nil => simp [dictPop] at h
  | cons kv rest ih =>
    by_cases hk : kv.1 = k
    · simp only [dictPop, if_pos hk] at h
      exact List.mem_cons_of_mem _ h
    · simp only [dictPop, if_neg hk] at h
      rcases List.mem_cons.mp h with h' | h'
      · exact h' ▸ List.mem_cons_self _ _
      · exact List.mem_cons_of_mem _ (ih h')

theorem dictPop_append_single {d : List (κ × β)} {k : κ} (v : β)
    (h : dictGet d k = none) : dictPop (d ++ [(k, v)]) k = d := by
  induction d with
  | nil => simp [dictPop]
  | cons kv rest ih =>
    by_cases hk : kv.1 = k
    · simp [dictGet, hk] at h
    · simp only [dictGet, if_neg hk] at h
      simp [dictPop, hk, ih h]

theorem dictGet_append_right {d d' : List (κ × β)} {k : κ}
    (h : dictGet d k = none) : dictGet (d ++ d') k = dictGet d' k := by
  induction d with
  | nil => simp
  | cons kv rest ih =>
    by_cases hk : kv.1 = k
    · simp [dictGet, hk] at h
    · simp only [dictGet, if_neg hk] at h
      simpa [dictGet, hk] using ih h

theorem dictGet_dictPop_self {d : List (κ × β)} {k : κ}
    (h : (d.map Prod.fst).Nodup) : dictGet (dictPop d k) k = none := by
  induction d with
  | nil => simp [dictPop, dictGet]
  | cons kv rest ih =>
    simp only [List.map_cons, List.nodup_cons] at h
    by_cases hk : kv.1 = k
    · simp only [dictPop, if_pos hk]
      exact dictGet_eq_none_of_not_mem (hk ▸ h.1)
    · simp only [dictPop, if_neg hk, dictGet, if_neg hk]
      exact ih h.2

theorem dictSetdefault_snd (d : List (κ × β)) (k : κ) (v : β) :
    (dictSetdefault d k v).2 = (dictGet d k).getD v := by
  unfold dictSetdefault
  cases dictGet d k <;> simp

theorem mem_dictSetdefault_fst {d : List (κ × β)} {k : κ} {v : β} {uc : κ × β}
    (h : uc ∈ (dictSetdefault d k v).1) : uc ∈ d ∨ uc = (k, v) := by
  unfold dictSetdefault at h
  cases hd : dictGet d k with
  | some cur => rw [hd] at h; exact Or.inl h
  | none =>
    rw [hd] at h
    simpa using List.mem_append.mp h

theorem dictSetdefault_fst_of_some {d : List (κ × β)} {k : κ} {v c : β}
    (h : dictGet d k = some c) : (dictSetdefault d k v).1 = d := by
  unfold dictSetdefault
  rw [h]

end Dict

/-- An invariant preserved by every step of a left fold holds of the result. -/
theorem foldl_invariant {α β : Type} (P : β → Prop) (f : β → α → β) :
    ∀ (l : List α) (init : β), P init → (∀ b a, a ∈ l → P b → P (f b a)) →
      P (l.foldl f init) := by
  intro l
  induction l with
  | nil => intro init h _; simpa using h
  | cons x xs ih =>
    intro init h hstep
    simp only [List.foldl_cons]
    exact ih _ (hstep init x (List.mem_cons_self _ _) h)
      (fun b a ha hb => hstep b a (List.mem_cons_of_mem _ ha) hb)

/-- Equality of `Except` values is decidable componentwise (used to state and
evaluate endpoint results at concrete inputs). -/
instance {ε α : Type} [DecidableEq ε] [DecidableEq α] : DecidableEq (Except ε α) := fun x y =>
  match x, y with
  | Except.ok a, Except.ok b =>
    if h : a = b then isTrue (by rw [h])
    else isFalse (by intro hc; injection hc with h2; exact h h2)
  | Except.error a, Except.error b =>
    if h : a = b then isTrue (by rw [h])
    else isFalse (by intro hc; injection hc with h2; exact h h2)
  | Except.ok _, Except.error _ => isFalse (by intro hc; cases hc)
  | Except.error _, Except.ok _ => isFalse (by intro hc; cases hc)

/-! ### The fixed catalog (src/backend/main.py, CATALOG) -/

/-- Value part of a catalog entry: display name, unit of sale, unit price.
Prices are stored in cents; the source stores floats but never computes with
them in any claimed operation. -/
structure CatalogEntry where
  name : String
  unit : String
  priceCents : Nat
deriving DecidableEq, Repr

/-- The fixed catalog of building materials, in source insertion order. -/
def CATALOG : List (String × CatalogEntry) := [
  ("concrete_bag", ⟨"Concrete Mix 60lb", "bag", 575⟩),
  ("plywood_sheet", ⟨"Plywood 3/4in 4x8", "sheet", 4250⟩),
  ("lumber_2x4", ⟨"Lumber 2x4x8 SPF", "piece", 425⟩),
  ("drywall_panel", ⟨"Drywall 1/2in 4x8", "panel", 1240⟩),
  ("rebar_10ft", ⟨"Rebar #4 10ft", "piece", 810⟩),
  ("brick_clay", ⟨"Clay Brick", "each", 55⟩),
  ("mortar_bag", ⟨"Mortar Mix 60lb", "bag", 630⟩),
  ("insulation_roll", ⟨"Fiberglass Insulation R-13", "roll", 1690⟩),
  ("roof_shingle", ⟨"Asphalt Shingles Bundle", "bundle", 3100⟩),
  ("galv_nails", ⟨"Galvanized Nails 1lb", "box", 480⟩),
  ("wood_screws", ⟨"Wood Screws 1lb", "box", 510⟩),
  ("paint_gallon", ⟨"Interior Paint White", "gallon", 2475⟩),
  ("primer_gallon", ⟨"Primer Sealer", "gallon", 2130⟩),
  ("acrylic_caulk", ⟨"Acrylic Caulk 10oz", "tube", 340⟩),
  ("pvc_pipe_10ft", ⟨"PVC Pipe 3/4in 10ft", "piece", 660⟩),
  ("copper_pipe_10ft", ⟨"Copper Pipe 1/2in 10ft", "piece", 3200⟩),
  ("electrical_cable", ⟨"NM-B Cable 12/2 50ft", "roll", 4800⟩),
  ("duplex_outlet", ⟨"Duplex Outlet 15A", "each", 120⟩),
  ("toggle_switch", ⟨"Toggle Light Switch", "each", 140⟩),
  ("led_fixture", ⟨"LED Ceiling Fixture", "each", 3600⟩)]

/-- `Product` response model. -/
structure Product where
  id : String
  name : String
  unit : String
  priceCents : Nat
deriving DecidableEq, Repr

/-- Build a `Product` from a catalog key and its entry
(`_catalog_product` body after the membership check, and the inline
constructions in `search_products`). -/
def productOf (pid : String) (e : CatalogEntry) : Product :=
  ⟨pid, e.name, e.unit, e.priceCents⟩

/-! ### Cart store (src/backend/main.py, `_carts`, add_to_cart, remove_from_cart) -/

/-- One line item of an add/remove request (`ModifyItem`). The pydantic model
validates `quantity > 0` at the HTTP boundary; theorems that depend on it take
the positivity as a hypothesis. -/
structure ModifyItem where
  product_id : String
  quantity : Int
deriving DecidableEq, Repr

/-- A per-user cart: product id -> stored quantity, a Python dict. -/
abbrev Cart := List (String × Int)

/-- The process-wide cart table `_carts`: user id -> cart. -/
abbrev Store := List (String × Cart)

/-- The HTTPException outcomes raised by the handlers. -/
inductive ApiError where
  | validationError
  | productNotFound
  | notInCart
deriving DecidableEq, Repr

/-- `_catalog_product` succeeds exactly when the id is a catalog key. -/
def validPid (it : ModifyItem) : Bool := (dictGet CATALOG it.product_id).isSome

/-- One iteration of the add loop:
`cart[pid] = cart.get(pid, 0) + item.quantity`. -/
def applyAdd (cart : Cart) (it : ModifyItem) : Cart :=
  dictSet cart it.product_id ((dictGet cart it.product_id).getD 0 + it.quantity)

/-- The add loop over the request items. Mutation is sequential and in place:
when `_catalog_product` raises, the items already processed stay applied and
the partially mutated cart is returned together with the error. -/
def addItems : Cart → List ModifyItem → Cart × Option ApiError
  | cart, [] => (cart, none)
  | cart, it :: rest =>
    if validPid it then addItems (applyAdd cart it) rest
    else (cart, some ApiError.productNotFound)

/-- `add_to_cart`: `cart = _carts.setdefault(user_id, {})`, then the add loop.
The result is the whole store after the call plus the error, if any. -/
def addToCart (store : Store) (u : String) (items : List ModifyItem) :
    Store × Option ApiError :=
  let sd := dictSetdefault store u []
  let res := addItems sd.2 items
  (dictSet sd.1 u res.1, res.2)

/-- The remove loop over the request items: unknown catalog id raises
ProductNotFound, an id absent from the cart raises NotInCart, otherwise the
quantity is decremented and the entry dropped when the result is not positive. -/
def removeItems : Cart → List ModifyItem → Cart × Option ApiError
  | cart, [] => (cart, none)
  | cart, it :: rest =>
    if validPid it then
      match dictGet cart it.product_id with
      | none => (cart, some ApiError.notInCart)
      | some cur =>
        if 0 < cur - it.quantity then
          removeItems (dictSet cart it.product_id (cur - it.quantity)) rest
        else
          removeItems (dictPop cart it.product_id) rest
    else (cart, some ApiError.productNotFound)

/-- `remove_from_cart`: setdefault then the remove loop. -/
def removeFromCart (store : Store) (u : String) (items : List ModifyItem) :
    Store × Option ApiError :=
  let sd := dictSetdefault store u []
  let res := removeItems sd.2 items
  (dictSet sd.1 u res.1, res.2)

/-- One cart line of a `CartResponse` (`CartItem`). -/
structure CartItem where
  product_id : String
  name : String
  quantity : Int
deriving DecidableEq, Repr

/-- `CartResponse`: the snapshot returned by both cart endpoints. -/
structure CartResponse where
  user_id : String
  items : List CartItem
  total_items : Int
deriving DecidableEq, Repr

/-- `_cart_response`: join each entry with the catalog display name and sum the
quantities. The `getD ""` branch is unreachable because carts only ever hold
catalog keys. -/
def cartResponse (u : String) (cart : Cart) : CartResponse :=
  let items := cart.map fun pq =>
    CartItem.mk pq.1 (((dictGet CATALOG pq.1).map CatalogEntry.name).getD "") pq.2
  ⟨u, items, (items.map CartItem.quantity).sum⟩

/-- A cart-store operation, for stating state-machine invariants. -/
inductive CartOp where
  | add (u : String) (items : List ModifyItem)
  | remove (u : String) (items : List ModifyItem)
deriving DecidableEq, Repr

/-- Apply one operation to the store (the response or error is discarded;
either way the returned store is the state after the call). -/
def stepOp (s : Store) : CartOp → Store
  | CartOp.add u items => (addToCart s u items).1
  | CartOp.remove u items => (removeFromCart s u items).1

/-- Run a sequence of cart operations from a starting store. -/
def runOps (s : Store) (ops : List CartOp) : Store := ops.foldl stepOp s

/-- All requested quantities of an operation are positive, as the pydantic
validation `gt=0` guarantees for every request the handlers actually see. -/
def cartOpValid : CartOp → Bool
  | CartOp.add _ items => items.all fun it => decide (1 ≤ it.quantity)
  | CartOp.remove _ items => items.all fun it => decide (1 ≤ it.quantity)

/-! ### Cart lemmas -/

/-- Unfolding of `addToCart` with the setdefault value made explicit. -/
theorem addToCart_eq (store : Store) (u : String) (items : List ModifyItem) :
    addToCart store u items =
      (dictSet (dictSetdefault store u []).1 u
        (addItems ((dictGet store u).getD []) items).1,
       (addItems ((dictGet store u).getD []) items).2) := by
  show (dictSet (dictSetdefault store u []).1 u
          (addItems (dictSetdefault store u []).2 items).1,
        (addItems (dictSetdefault store u []).2 items).2) = _
  rw [dictSetdefault_snd]

/-- Unfolding of `removeFromCart` with the setdefault value made explicit. -/
theorem removeFromCart_eq (store : Store) (u : String) (items : List ModifyItem) :
    removeFromCart store u items =
      (dictSet (dictSetdefault store u []).1 u
        (removeItems ((dictGet store u).getD []) items).1,
       (removeItems ((dictGet store u).getD []) items).2) := by
  show (dictSet (dictSetdefault store u []).1 u
          (removeItems (dictSetdefault store u []).2 items).1,
        (removeItems (dictSetdefault store u []).2 items).2) = _
  rw [dictSetdefault_snd]

/-- The add loop applies exactly the items before the first unknown product id,
and reports ProductNotFound exactly when some id is unknown. -/
theorem addItems_eq (items : List ModifyItem) : ∀ cart : Cart,
    addItems cart items =
      ((items.takeWhile validPid).foldl applyAdd cart,
        if items.all validPid then none else some ApiError.productNotFound) := by
  induction items with
  | nil => intro cart; simp [addItems]
  | cons it rest ih =>
    intro cart
    cases hv : validPid it with
    | true => simp [addItems, hv, ih]
    | false => simp [addItems, hv]

/-- The cart a handler starts from is well formed whenever the store is. -/
theorem cartWF_of_storeWF {s : Store}
    (h : ∀ uc ∈ s, ∀ pq ∈ uc.2, (1 : Int) ≤ pq.2) (u : String) :
    ∀ pq ∈ (dictGet s u).getD [], (1 : Int) ≤ pq.2 := by
  cases hg : dictGet s u with
  | none => simp
  | some c => exact fun pq hpq => h (u, c) (dictGet_mem hg) pq hpq

/-- The add loop preserves positivity of every stored quantity. -/
theorem cartWF_addItems {items : List ModifyItem}
    (hq : ∀ it ∈ items, (1 : Int) ≤ it.quantity) :
    ∀ cart : Cart, (∀ pq ∈ cart, (1 : Int) ≤ pq.2) →
      ∀ pq ∈ (addItems cart items).1, (1 : Int) ≤ pq.2 := by
  induction items with
  | nil => intro cart hW; simpa [addItems] using hW
  | cons it rest ih =>
    intro cart hW
    cases hv : validPid it with
    | false => simpa [addItems, hv] using hW
    | true =>
      simp only [addItems, hv, if_true]
      refine ih (fun it' h' => hq it' (List.mem_cons_of_mem _ h')) (applyAdd cart it) ?_
      intro pq hpq
      rcases mem_dictSet hpq with hmem | heq
      · exact hW pq hmem
      · have hq1 : (1 : Int) ≤ it.quantity := hq it (List.mem_cons_self _ _)
        cases hg : dictGet cart it.product_id with
        | none => rw [heq]; simp [hg]; omega
        | some cur =>
          have hcur : (1 : Int) ≤ cur := hW _ (dictGet_mem hg)
          rw [heq]; simp [hg]; omega

/-- The remove loop preserves positivity of every stored quantity. -/
theorem cartWF_removeItems (items : List ModifyItem) :
    ∀ cart : Cart, (∀ pq ∈ cart, (1 : Int) ≤ pq.2) →
      ∀ pq ∈ (removeItems cart items).1, (1 : Int) ≤ pq.2 := by
  induction items with
  | nil => intro cart hW; simpa [removeItems] using hW
  | cons it rest ih =>
    intro cart hW
    cases hv : validPid it with
    | false => simpa [removeItems, hv] using hW
    | true =>
      cases hg : dictGet cart it.product_id with
      | none => simpa [removeItems, hv, hg] using hW
      | some cur =>
        by_cases hpos : 0 < cur - it.quantity
        · simp only [removeItems, hv, if_true, hg, if_pos hpos]
          refine ih _ ?_
          intro pq hpq
          rcases mem_dictSet hpq with hmem | heq
          · exact hW pq hmem
          · rw [heq]; simp only []; omega
        · simp only [removeItems, hv, if_true, hg, if_neg hpos]
          exact ih _ (fun pq hpq => hW pq (mem_dictPop hpq))

/-- One add or remove call with positive quantities preserves positivity of
every stored quantity of every user. -/
theorem storeWF_stepOp {s : Store}
    (hs : ∀ uc ∈ s, ∀ pq ∈ uc.2, (1 : Int) ≤ pq.2) {op : CartOp}
    (hop : cartOpValid op = true) :
    ∀ uc ∈ stepOp s op, ∀ pq ∈ uc.2, (1 : Int) ≤ pq.2 := by
  cases op with
  | add u items =>
    have hq : ∀ it ∈ items, (1 : Int) ≤ it.quantity := by
      simpa [cartOpValid, List.all_eq_true] using hop
    intro uc hc
    simp only [stepOp, addToCart] at hc
    rcases mem_dictSet hc with h1 | h1
    · rcases mem_dictSetdefault_fst h1 with h2 | h2
      · exact hs uc h2
      · rw [h2]; intro pq hpq; simp at hpq
    · rw [h1]
      rw [dictSetdefault_snd]
      exact cartWF_addItems hq _ (cartWF_of_storeWF hs u)
  | remove u items =>
    intro uc hc
    simp only [stepOp, removeFromCart] at hc
    rcases mem_dictSet hc with h1 | h1
    · rcases mem_dictSetdefault_fst h1 with h2 | h2
      · exact hs uc h2
      · rw [h2]; intro pq hpq; simp at hpq
    · rw [h1]
      rw [dictSetdefault_snd]
      exact cartWF_removeItems items _ (cartWF_of_storeWF hs u)

/-! ### Claim theorems about the cart -/

/-- C1 counterexample: an add call whose second item has an unknown product id
fails with ProductNotFound, yet the first line item has already been applied:
the cart of the user is not what it was before the call. -/
theorem add_not_atomic_counterexample :
    (addToCart [] "alice" [⟨"concrete_bag", 2⟩, ⟨"no_such_product", 1⟩]).2 =
        some ApiError.productNotFound ∧
    dictGet (addToCart [] "alice" [⟨"concrete_bag", 2⟩, ⟨"no_such_product", 1⟩]).1
        "alice" = some [("concrete_bag", 2)] ∧
    dictGet ([] : Store) "alice" = none := by
  decide

/-- C1 (amended): an add call fails with ProductNotFound exactly when some item
has an unknown product id; the items strictly before the first unknown id are
applied and stay applied (the store keeps the partial mutation, no rollback),
while the failing item and everything after it are not applied. -/
theorem add_applies_items_before_failure (store : Store) (u : String)
    (items : List ModifyItem) :
    addToCart store u items =
      (dictSet (dictSetdefault store u []).1 u
        ((items.takeWhile validPid).foldl applyAdd (dictSetdefault store u []).2),
        if items.all validPid then none else some ApiError.productNotFound) := by
  show (dictSet (dictSetdefault store u []).1 u
          (addItems (dictSetdefault store u []).2 items).1,
        (addItems (dictSetdefault store u []).2 items).2) = _
  rw [addItems_eq]

/-- C2: starting from the empty store, after any sequence of add and remove
calls whose requested quantities are positive, every stored quantity of every
user is at least 1; moreover a remove step whose decrement would drive the
stored quantity to zero or below deletes the entry entirely (and is no error). -/
theorem cart_quantities_at_least_one :
    (∀ ops : List CartOp, (∀ op ∈ ops, cartOpValid op = true) →
      ∀ uc ∈ runOps [] ops, ∀ pq ∈ uc.2, (1 : Int) ≤ pq.2) ∧
    (∀ (cart : Cart) (it : ModifyItem) (cur : Int), validPid it = true →
      dictGet cart it.product_id = some cur → cur - it.quantity ≤ 0 →
      removeItems cart [it] = (dictPop cart it.product_id, none)) := by
  constructor
  · intro ops hops
    unfold runOps
    exact foldl_invariant (fun s => ∀ uc ∈ s, ∀ pq ∈ uc.2, (1 : Int) ≤ pq.2)
      stepOp ops [] (by intro uc hc; simp at hc)
      (fun s op hop hs => storeWF_stepOp hs (hops op hop))
  · intro cart it cur hv hg hle
    have hnot : ¬ (0 : Int) < cur - it.quantity := by omega
    simp [removeItems, hv, hg, hnot]

/-- C8: when the cart of user `u` has no entry for a catalog product `p`,
adding 3 of `p` and then removing 3 of `p` succeeds (no error on either call)
and returns the cart of `u` to exactly its starting contents, so every other
entry and its contribution to the totals is unchanged. -/
theorem add_then_remove_roundtrip (store : Store) (u p : String)
    (hp : (dictGet CATALOG p).isSome)
    (h0 : dictGet ((dictGet store u).getD []) p = none) :
    (addToCart store u [⟨p, 3⟩]).2 = none ∧
    (removeFromCart (addToCart store u [⟨p, 3⟩]).1 u [⟨p, 3⟩]).2 = none ∧
    dictGet (removeFromCart (addToCart store u [⟨p, 3⟩]).1 u [⟨p, 3⟩]).1 u =
      some ((dictGet store u).getD []) := by
  have hv : validPid ⟨p, 3⟩ = true := hp
  have hone : applyAdd ((dictGet store u).getD []) ⟨p, 3⟩ =
      ((dictGet store u).getD []) ++ [(p, 3)] := by
    unfold applyAdd
    simp only [h0, Option.getD_none, zero_add]
    exact dictSet_of_get_none 3 h0
  have h1 : addItems ((dictGet store u).getD []) [⟨p, 3⟩] =
      (((dictGet store u).getD []) ++ [(p, 3)], none) := by
    simp [addItems, hv, hone]
  have hadd : addToCart store u [⟨p, 3⟩] =
      (dictSet (dictSetdefault store u []).1 u
        (((dictGet store u).getD []) ++ [(p, 3)]), none) := by
    show (dictSet (dictSetdefault store u []).1 u
            (addItems (dictSetdefault store u []).2 [⟨p, 3⟩]).1,
          (addItems (dictSetdefault store u []).2 [⟨p, 3⟩]).2) = _
    rw [dictSetdefault_snd, h1]
  rw [hadd]
  have hs1 : dictGet (dictSet (dictSetdefault store u []).1 u
      (((dictGet store u).getD []) ++ [(p, 3)])) u =
      some (((dictGet store u).getD []) ++ [(p, 3)]) := dictGet_dictSet_self _ _ _
  have hg1 : dictGet (((dictGet store u).getD []) ++ [(p, 3)]) p = some 3 := by
    rw [dictGet_append_right h0]
    simp [dictGet]
  have h2 : removeItems (((dictGet store u).getD []) ++ [(p, 3)]) [⟨p, 3⟩] =
      ((dictGet store u).getD [], none) := by
    have h33 : ¬ (0 : Int) < 3 - 3 := by omega
    simp only [removeItems, hv, if_true, hg1, h33, if_false]
    rw [dictPop_append_single 3 h0]
  have hrem : removeFromCart (dictSet (dictSetdefault store u []).1 u
      (((dictGet store u).getD []) ++ [(p, 3)])) u [⟨p, 3⟩] =
      (dictSet (dictSet (dictSetdefault store u []).1 u
        (((dictGet store u).getD []) ++ [(p, 3)])) u ((dictGet store u).getD []),
       none) := by
    rw [removeFromCart_eq, dictSetdefault_fst_of_some hs1, hs1]
    simp only [Option.getD_some]
    rw [h2]
  rw [hrem]
  exact ⟨rfl, rfl, dictGet_dictSet_self _ _ _⟩

/-- C8 witness at a concrete input. -/
theorem add_then_remove_roundtrip_witness :
    ((dictGet CATALOG "concrete_bag").isSome ∧
      dictGet ((dictGet ([] : Store) "bob").getD []) "concrete_bag" = none) ∧
    dictGet (removeFromCart (addToCart [] "bob" [⟨"concrete_bag", 3⟩]).1 "bob"
        [⟨"concrete_bag", 3⟩]).1 "bob" =
      some ((dictGet ([] : Store) "bob").getD []) :=
  ⟨⟨by decide, by decide⟩,
    (add_then_remove_roundtrip [] "bob" "concrete_bag" (by decide) (by decide)).2.2⟩

/-- C9: a remove call for a single recognized product raises NotInCart exactly
when the cart of the user has no entry for it; when an entry with quantity
`cur` exists the call is no error, removing at least `cur` deletes the entry,
and removing less leaves the entry at the difference. -/
theorem remove_call_semantics (store : Store) (u : String) (it : ModifyItem)
    (hv : validPid it = true)
    (hnd : ((((dictGet store u).getD []).map Prod.fst)).Nodup) :
    ((removeFromCart store u [it]).2 = some ApiError.notInCart ↔
      dictGet ((dictGet store u).getD []) it.product_id = none) ∧
    (∀ cur : Int, dictGet ((dictGet store u).getD []) it.product_id = some cur →
      (removeFromCart store u [it]).2 = none ∧
      (cur ≤ it.quantity →
        dictGet ((dictGet (removeFromCart store u [it]).1 u).getD [])
          it.product_id = none) ∧
      (it.quantity < cur →
        dictGet ((dictGet (removeFromCart store u [it]).1 u).getD [])
          it.product_id = some (cur - it.quantity))) := by
  have hshow : removeFromCart store u [it] =
      (dictSet (dictSetdefault store u []).1 u
        (removeItems ((dictGet store u).getD []) [it]).1,
       (removeItems ((dictGet store u).getD []) [it]).2) := by
    show (dictSet (dictSetdefault store u []).1 u
            (removeItems (dictSetdefault store u []).2 [it]).1,
          (removeItems (dictSetdefault store u []).2 [it]).2) = _
    rw [dictSetdefault_snd]
  rw [hshow]
  cases hg : dictGet ((dictGet store u).getD []) it.product_id with
  | none =>
    constructor
    · simp [removeItems, hv, hg]
    · intro cur hcur
      simp [hg] at hcur
  | some cur0 =>
    constructor
    · simp only [removeItems, hv, if_true, hg]
      by_cases hpos : (0 : Int) < cur0 - it.quantity
      · simp [removeItems, hpos]
      · simp [removeItems, hpos]
    · intro cur hcur
      injection hcur with hcur
      subst hcur
      by_cases hpos : (0 : Int) < cur0 - it.quantity
      · simp only [removeItems, hv, if_true, hg, if_pos hpos]
        refine ⟨trivial, ?_, ?_⟩
        · intro hle; omega
        · intro _
          rw [dictGet_dictSet_self]
          simp only [Option.getD_some]
          exact dictGet_dictSet_self _ _ _
      · simp only [removeItems, hv, if_true, hg, if_neg hpos]
        refine ⟨trivial, ?_, ?_⟩
        · intro _
          rw [dictGet_dictSet_self]
          simp only [Option.getD_some]
          exact dictGet_dictPop_self hnd
        · intro hlt; omega

/-- C9 witness at a concrete input: removing 5 of a product stored with
quantity 2 is no error and deletes the entry. -/
theorem remove_call_semantics_witness :
    (validPid ⟨"brick_clay", 5⟩ = true ∧
      (((dictGet ([("bob", [("brick_clay", 2)])] : Store) "bob").getD
        []).map Prod.fst).Nodup ∧
      dictGet ((dictGet ([("bob", [("brick_clay", 2)])] : Store) "bob").getD [])
        "brick_clay" = some 2 ∧ (2 : Int) ≤ 5) ∧
    dictGet ((dictGet (removeFromCart [("bob", [("brick_clay", 2)])] "bob"
        [⟨"brick_clay", 5⟩]).1 "bob").getD []) "brick_clay" = none :=
  ⟨⟨by decide, by decide, by decide, by decide⟩,
    ((remove_call_semantics [("bob", [("brick_clay", 2)])] "bob" ⟨"brick_clay", 5⟩
      (by decide) (by decide)).2 2 (by decide)).2.1 (by decide)⟩

/-- C10: every add or remove call leaves the user key present in the store,
even when the call fails; in particular, when the user was absent and the only
line item has an unknown product id, the call fails with ProductNotFound and
the user is left with an (empty) cart entry inserted before the validation. -/
theorem user_key_present_after_call :
    (∀ (s : Store) (u : String) (items : List ModifyItem),
      (dictGet (addToCart s u items).1 u).isSome ∧
      (dictGet (removeFromCart s u items).1 u).isSome) ∧
    (∀ (s : Store) (u : String) (it : ModifyItem),
      dictGet s u = none → dictGet CATALOG it.product_id = none →
      (dictGet (addToCart s u [it]).1 u = some [] ∧
        (addToCart s u [it]).2 = some ApiError.productNotFound) ∧
      (dictGet (removeFromCart s u [it]).1 u = some [] ∧
        (removeFromCart s u [it]).2 = some ApiError.productNotFound)) := by
  constructor
  · intro s u items
    constructor
    · show (dictGet (dictSet (dictSetdefault s u []).1 u
        (addItems (dictSetdefault s u []).2 items).1) u).isSome
      rw [dictGet_dictSet_self]
      rfl
    · show (dictGet (dictSet (dictSetdefault s u []).1 u
        (removeItems (dictSetdefault s u []).2 items).1) u).isSome
      rw [dictGet_dictSet_self]
      rfl
  · intro s u it hu hcat
    have hv : validPid it = false := by simp [validPid, hcat]
    have hsd : dictSetdefault s u ([] : Cart) = (s ++ [(u, [])], []) := by
      unfold dictSetdefault
      rw [hu]
    constructor
    · constructor
      · show dictGet (dictSet (dictSetdefault s u []).1 u
          (addItems (dictSetdefault s u []).2 [it]).1) u = some []
        rw [hsd]
        simp [addItems, hv, dictGet_dictSet_self]
      · show (addItems (dictSetdefault s u []).2 [it]).2 =
          some ApiError.productNotFound
        rw [hsd]
        simp [addItems, hv]
    · constructor
      · show dictGet (dictSet (dictSetdefault s u []).1 u
          (removeItems (dictSetdefault s u []).2 [it]).1) u = some []
        rw [hsd]
        simp [removeItems, hv, dictGet_dictSet_self]
      · show (removeItems (dictSetdefault s u []).2 [it]).2 =
          some ApiError.productNotFound
        rw [hsd]
        simp [removeItems, hv]

/-- C10 witness at a concrete input. -/
theorem user_key_present_after_call_witness :
    (dictGet ([] : Store) "alice" = none ∧
      dictGet CATALOG "no_such_product" = none) ∧
    (dictGet (addToCart [] "alice" [⟨"no_such_product", 1⟩]).1 "alice" =
        some [] ∧
      (addToCart [] "alice" [⟨"no_such_product", 1⟩]).2 =
        some ApiError.productNotFound) :=
  ⟨⟨by decide, by decide⟩,
    (user_key_present_after_call.2 [] "alice" ⟨"no_such_product", 1⟩
      (by decide) (by decide)).1⟩

/-- C2 witness at a concrete sequence of operations. -/
theorem cart_quantities_at_least_one_witness :
    (∀ op ∈ [CartOp.add "alice" [⟨"concrete_bag", 2⟩],
        CartOp.remove "alice" [⟨"concrete_bag", 1⟩]], cartOpValid op = true) ∧
    (∀ uc ∈ runOps [] [CartOp.add "alice" [⟨"concrete_bag", 2⟩],
        CartOp.remove "alice" [⟨"concrete_bag", 1⟩]],
      ∀ pq ∈ uc.2, (1 : Int) ≤ pq.2) :=
  ⟨by decide,
    cart_quantities_at_least_one.1
      [CartOp.add "alice" [⟨"concrete_bag", 2⟩],
        CartOp.remove "alice" [⟨"concrete_bag", 1⟩]] (by decide)⟩

/-! ### Query normalization: q.lower().strip() -/

/-- Python str.lower
(everything matched here is ASCII, where Char.toLower agrees with it). -/
def pyLower (s : List Char) : List Char := s.map Char.toLower

/-- The default whitespace set of Python str.strip, ASCII part. -/
def isPySpace (c : Char) : Bool :=
  c == ' ' || c == '\t' || c == '\n' || c == '\r' || c == '\x0b' || c == '\x0c'

/-- Python str.strip: drop whitespace from both ends. -/
def pyStrip (s : List Char) : List Char :=
  ((s.dropWhile isPySpace).reverse.dropWhile isPySpace).reverse

/-- The normalization `q.lower().strip()` applied to each query. -/
def normalize (q : String) : List Char := pyStrip (pyLower q.data)

/-! ### difflib.SequenceMatcher(None, a, b), embedded

SequenceMatcher with no junk function builds b2j, the positions of each
character of b, drops characters deemed popular by the autojunk heuristic
(only when len(b) >= 200), finds the longest matching block by scanning a with
a running table of match-run lengths, extends the found block over equal
characters at both ends, recurses left and right of the block, and sums the
block sizes for ratio = 2*M/(len(a)+len(b)). -/

/-- The autojunk popularity test: with `len(b) >= 200`, characters occurring
more than `len(b) // 100 + 1` times in b are dropped from the b2j index. -/
def isPopular (b : List Char) (c : Char) : Bool :=
  decide (200 ≤ b.length) && decide (b.length / 100 + 1 < b.count c)

/-- One row of the j2len table of the scan: for the fixed character ca = a[i],
the run lengths k(i, j) along b. `prev` holds the previous row shifted right
by one, so its o-th element is k(i-1, j-1) for position j = o and the chain
rule of the scan is `j2len[j] = j2len_prev.get(j-1, 0) + 1` on a match (a
match needs equal characters and b[j] not dropped as popular), else 0. -/
def buildRow (ca : Char) (pop : Char → Bool) : List Char → List Nat → List Nat
  | [], _ => []
  | c :: cs, prev =>
    (if ca == c && !(pop c) then prev.headD 0 + 1 else 0) ::
      buildRow ca pop cs prev.tail

/-- Walk one row of run lengths, j ascending, keeping the first triple
(start in a, start in b, size) that strictly improves the best size. -/
def bestInRow (i : Nat) : Nat → List Nat → Nat × Nat × Nat → Nat × Nat × Nat
  | _, [], best => best
  | j, k :: ks, best =>
    if best.2.2 < k then bestInRow i (j + 1) ks (i + 1 - k, j + 1 - k, k)
    else bestInRow i (j + 1) ks best

/-- The main scan of find_longest_match: i ascending over a, each row walked
with j ascending; only strict size improvements update the best block, so
ties go to the block starting earliest in a, then earliest in b, as in
difflib. -/
def scanAll (b : List Char) (pop : Char → Bool) :
    List Char → Nat → List Nat → Nat × Nat × Nat → Nat × Nat × Nat
  | [], _, _, best => best
  | ca :: as, i, prev, best =>
    scanAll b pop as (i + 1) (buildRow ca pop b (0 :: prev))
      (bestInRow i 0 (buildRow ca pop b (0 :: prev)) best)

def scanBest (a b : List Char) (pop : Char → Bool) : Nat × Nat × Nat :=
  scanAll b pop a 0 [] (0, 0, 0)

theorem buildRow_length (ca : Char) (pop : Char → Bool) :
    ∀ (cs : List Char) (prev : List Nat), (buildRow ca pop cs prev).length = cs.length := by
  intro cs
  induction cs with
  | nil => intro prev; rfl
  | cons c cs ih => intro prev; simp [buildRow, ih]

/-- Every run length in a row is at most one more than its position and at
most one more than the bound on the previous row values. -/
theorem buildRow_bounds (ca : Char) (pop : Char → Bool) (m : Nat) :
    ∀ (cs : List Char) (prev : List Nat) (s : Nat),
      (∀ o p, prev[o]? = some p → p ≤ o + s ∧ p ≤ m) →
      ∀ o k, (buildRow ca pop cs prev)[o]? = some k → k ≤ o + s + 1 ∧ k ≤ m + 1 := by
  intro cs
  induction cs with
  | nil => intro prev s _ o k hk; simp [buildRow] at hk
  | cons c cs ih =>
    intro prev s h o k hk
    cases o with
    | zero =>
      rw [buildRow, List.getElem?_cons_zero] at hk
      injection hk with hk
      subst hk
      split
      · cases prev with
        | nil => simp only [List.headD]; omega
        | cons p0 ps =>
          have := h 0 p0 (by simp)
          simp only [List.headD]
          omega
      · omega
    | succ o =>
      rw [buildRow, List.getElem?_cons_succ] at hk
      have hrec := ih prev.tail (s + 1) ?_ o k hk
      · omega
      · intro o' p hp
        cases prev with
        | nil => simp at hp
        | cons p0 ps =>
          have := h (o' + 1) p (by simpa using hp)
          omega

theorem bestInRow_invariant (la lb : Nat) (i : Nat) (hia : i < la) :
    ∀ (ks : List Nat) (j : Nat),
      (∀ o k, ks[o]? = some k → k ≤ i + 1 ∧ k ≤ j + o + 1) →
      j + ks.length ≤ lb →
      ∀ best : Nat × Nat × Nat,
        (best = (0, 0, 0) ∨ (0 < best.2.2 ∧ best.1 + best.2.2 ≤ la ∧
          best.2.1 + best.2.2 ≤ lb)) →
        (bestInRow i j ks best = (0, 0, 0) ∨
          (0 < (bestInRow i j ks best).2.2 ∧
            (bestInRow i j ks best).1 + (bestInRow i j ks best).2.2 ≤ la ∧
            (bestInRow i j ks best).2.1 + (bestInRow i j ks best).2.2 ≤ lb)) := by
  intro ks
  induction ks with
  | nil => intro j _ _ best hbest; exact hbest
  | cons k ks ih =>
    intro j hks hlen best hbest
    have hk0 := hks 0 k (by simp)
    have hlen' : j + 1 + ks.length ≤ lb := by
      simp only [List.length_cons] at hlen
      omega
    have hks' : ∀ o k', ks[o]? = some k' → k' ≤ i + 1 ∧ k' ≤ j + 1 + o + 1 := by
      intro o k' hk'
      have := hks (o + 1) k' (by simpa using hk')
      omega
    simp only [bestInRow]
    by_cases hlt : best.2.2 < k
    · rw [if_pos hlt]
      apply ih (j + 1) hks' hlen'
      right
      refine ⟨?_, ?_, ?_⟩ <;> (dsimp only; omega)
    · rw [if_neg hlt]
      exact ih (j + 1) hks' hlen' best hbest

theorem scanAll_invariant (b : List Char) (pop : Char → Bool) (la : Nat) :
    ∀ (as : List Char) (i : Nat) (prev : List Nat) (best : Nat × Nat × Nat),
      i + as.length ≤ la →
      (∀ o p, prev[o]? = some p → p ≤ o + 1 ∧ p ≤ i) →
      (best = (0, 0, 0) ∨ (0 < best.2.2 ∧ best.1 + best.2.2 ≤ la ∧
        best.2.1 + best.2.2 ≤ b.length)) →
      (scanAll b pop as i prev best = (0, 0, 0) ∨
        (0 < (scanAll b pop as i prev best).2.2 ∧
          (scanAll b pop as i prev best).1 +
            (scanAll b pop as i prev best).2.2 ≤ la ∧
          (scanAll b pop as i prev best).2.1 +
            (scanAll b pop as i prev best).2.2 ≤ b.length)) := by
  intro as
  induction as with
  | nil => intro i prev best _ _ hbest; exact hbest
  | cons ca as ih =>
    intro i prev best hlen hprev hbest
    have hia : i < la := by
      simp only [List.length_cons] at hlen
      omega
    have hshift : ∀ o p, (0 :: prev)[o]? = some p → p ≤ o ∧ p ≤ i := by
      intro o p hp
      cases o with
      | zero =>
        rw [List.getElem?_cons_zero] at hp
        injection hp with hp
        omega
      | succ o =>
        rw [List.getElem?_cons_succ] at hp
        have := hprev o p hp
        omega
    have hrow := buildRow_bounds ca pop i b (0 :: prev) 0
      (by intro o p hp; have := hshift o p hp; omega)
    simp only [scanAll]
    apply ih (i + 1) _ _ (by simp only [List.length_cons] at hlen; omega)
    · intro o p hp
      have := hrow o p hp
      omega
    · apply bestInRow_invariant la b.length i hia _ 0
        (by intro o k hk; have := hrow o k hk; constructor <;> omega)
        (by rw [buildRow_length]; omega) best hbest

theorem scanBest_bounds (a b : List Char) (pop : Char → Bool) :
    scanBest a b pop = (0, 0, 0) ∨
      (0 < (scanBest a b pop).2.2 ∧
        (scanBest a b pop).1 + (scanBest a b pop).2.2 ≤ a.length ∧
        (scanBest a b pop).2.1 + (scanBest a b pop).2.2 ≤ b.length) := by
  unfold scanBest
  exact scanAll_invariant b pop a.length a 0 [] (0, 0, 0) (by simp)
    (by intro o p hp; simp at hp) (Or.inl rfl)

/-- The first end-extension loop of find_longest_match run leftwards: with no
junk function the guard is plain character equality. Returns how many steps
the block start can move left. -/
def extendLeftLen (a b : List Char) : Nat → Nat → Nat
  | 0, _ => 0
  | _ + 1, 0 => 0
  | i + 1, j + 1 =>
    if (a[i]?).isSome && a[i]? == b[j]? then extendLeftLen a b i j + 1 else 0

theorem extendLeftLen_le_left (a b : List Char) :
    ∀ i j, extendLeftLen a b i j ≤ i := by
  intro i
  induction i with
  | zero => intro j; simp [extendLeftLen]
  | succ i ih =>
    intro j
    cases j with
    | zero => simp [extendLeftLen]
    | succ j =>
      simp only [extendLeftLen]
      split
      · have := ih j; omega
      · omega

theorem extendLeftLen_le_right (a b : List Char) :
    ∀ i j, extendLeftLen a b i j ≤ j := by
  intro i
  induction i with
  | zero => intro j; simp [extendLeftLen]
  | succ i ih =>
    intro j
    cases j with
    | zero => simp [extendLeftLen]
    | succ j =>
      simp only [extendLeftLen]
      split
      · have := ih j; omega
      · omega

/-- The rightward end-extension loop, with fuel. The fuel `a.length + 1` used
below never runs out: each successful step has `a[i]?` defined, so at most
`a.length - i` steps happen from start position i. -/
def extRightAux (a b : List Char) : Nat → Nat → Nat → Nat
  | 0, _, _ => 0
  | f + 1, i, j =>
    if (a[i]?).isSome && a[i]? == b[j]? then extRightAux a b f (i + 1) (j + 1) + 1
    else 0

def extendRightLen (a b : List Char) (i j : Nat) : Nat :=
  extRightAux a b (a.length + 1) i j

theorem lt_length_of_isSome {α : Type} {l : List α} {i : Nat}
    (h : (l[i]?).isSome = true) : i < l.length := by
  by_contra hge
  rw [List.getElem?_eq_none (Nat.le_of_not_lt hge)] at h
  simp at h

theorem extRightAux_bounds (a b : List Char) :
    ∀ f i j, extRightAux a b f i j = 0 ∨
      (i + extRightAux a b f i j ≤ a.length ∧ j + extRightAux a b f i j ≤ b.length) := by
  intro f
  induction f with
  | zero => intro i j; exact Or.inl rfl
  | succ f ih =>
    intro i j
    simp only [extRightAux]
    split
    · next hcond =>
      rw [Bool.and_eq_true] at hcond
      obtain ⟨h1, h2⟩ := hcond
      right
      have hia : i < a.length := lt_length_of_isSome h1
      have hjb : j < b.length := by
        apply lt_length_of_isSome
        cases hai : a[i]? with
        | none => rw [hai] at h1; simp at h1
        | some x =>
          cases hbj : b[j]? with
          | none => rw [hai, hbj] at h2; simp at h2
          | some y => simp
      rcases ih (i + 1) (j + 1) with h0 | ⟨ha, hb⟩
      · rw [h0]; omega
      · omega
    · exact Or.inl rfl

/-- find_longest_match over whole sequences: the scan, then the two
end-extension loops (the junk-gluing loops are no-ops: there is no junk). -/
def flm (a b : List Char) (pop : Char → Bool) : Nat × Nat × Nat :=
  let s := scanBest a b pop
  let l := extendLeftLen a b s.1 s.2.1
  let r := extendRightLen a b (s.1 + s.2.2) (s.2.1 + s.2.2)
  (s.1 - l, s.2.1 - l, s.2.2 + l + r)

theorem flm_bounds (a b : List Char) (pop : Char → Bool)
    (h : (flm a b pop).2.2 ≠ 0) :
    (flm a b pop).1 + (flm a b pop).2.2 ≤ a.length ∧
      (flm a b pop).2.1 + (flm a b pop).2.2 ≤ b.length := by
  have hflm : flm a b pop =
      ((scanBest a b pop).1 -
         extendLeftLen a b (scanBest a b pop).1 (scanBest a b pop).2.1,
       (scanBest a b pop).2.1 -
         extendLeftLen a b (scanBest a b pop).1 (scanBest a b pop).2.1,
       (scanBest a b pop).2.2 +
         extendLeftLen a b (scanBest a b pop).1 (scanBest a b pop).2.1 +
         extRightAux a b (a.length + 1)
           ((scanBest a b pop).1 + (scanBest a b pop).2.2)
           ((scanBest a b pop).2.1 + (scanBest a b pop).2.2)) := rfl
  have hr := extRightAux_bounds a b (a.length + 1)
    ((scanBest a b pop).1 + (scanBest a b pop).2.2)
    ((scanBest a b pop).2.1 + (scanBest a b pop).2.2)
  have hll := extendLeftLen_le_left a b (scanBest a b pop).1 (scanBest a b pop).2.1
  have hlr := extendLeftLen_le_right a b (scanBest a b pop).1 (scanBest a b pop).2.1
  rw [hflm] at h ⊢
  dsimp only at h ⊢
  rcases scanBest_bounds a b pop with h0 | ⟨hk, ha2, hb2⟩
  · rw [h0] at h hr hll hlr ⊢
    dsimp only at h hr hll hlr ⊢
    rcases hr with hr0 | ⟨hra, hrb⟩
    · rw [hr0] at h ⊢
      simp only [extendLeftLen] at h ⊢
      omega
    · simp only [extendLeftLen] at h hra hrb ⊢
      omega
  · rcases hr with hr0 | ⟨hra, hrb⟩
    · rw [hr0] at h ⊢
      omega
    · omega

/-- get_matching_blocks total size M, structurally recursive on a fuel that
bounds the recursion depth: take the longest match, recurse on the two
remaining corners (the queue order does not affect the sum, and the
adjacent-block merge pass preserves it). Every recursive call strictly
shrinks the first sequence, so fuel `a.length` always suffices;
`matchSum_eq` below proves that with that fuel this function satisfies the
recursion of difflib exactly. -/
def matchSumF : Nat → List Char → List Char → (Char → Bool) → Nat
  | 0, _, _, _ => 0
  | fuel + 1, a, b, pop =>
    if (flm a b pop).2.2 = 0 then 0
    else
      (flm a b pop).2.2 +
        matchSumF fuel (a.take (flm a b pop).1) (b.take (flm a b pop).2.1) pop +
        matchSumF fuel (a.drop ((flm a b pop).1 + (flm a b pop).2.2))
          (b.drop ((flm a b pop).2.1 + (flm a b pop).2.2)) pop

/-- get_matching_blocks total size M between a and b. -/
def matchSum (a b : List Char) (pop : Char → Bool) : Nat :=
  matchSumF a.length a b pop

theorem flm_nil (b : List Char) (pop : Char → Bool) : flm [] b pop = (0, 0, 0) := rfl

theorem matchSumF_congr : ∀ (f : Nat), ∀ (g : Nat) (a b : List Char) (pop : Char → Bool),
    a.length ≤ f → a.length ≤ g → matchSumF f a b pop = matchSumF g a b pop := by
  intro f
  induction f with
  | zero =>
    intro g a b pop hf _
    have ha : a = [] := List.length_eq_zero.mp (Nat.le_zero.mp hf)
    subst ha
    cases g with
    | zero => rfl
    | succ g => simp [matchSumF, flm_nil]
  | succ f ih =>
    intro g a b pop hf hg
    cases g with
    | zero =>
      have ha : a = [] := List.length_eq_zero.mp (Nat.le_zero.mp hg)
      subst ha
      simp [matchSumF, flm_nil]
    | succ g =>
      simp only [matchSumF]
      by_cases hk : (flm a b pop).2.2 = 0
      · rw [if_pos hk, if_pos hk]
      · rw [if_neg hk, if_neg hk]
        have hb := flm_bounds a b pop hk
        have htake : (a.take (flm a b pop).1).length ≤ a.length - 1 := by
          rw [List.length_take]
          omega
        have hdrop : (a.drop ((flm a b pop).1 + (flm a b pop).2.2)).length ≤
            a.length - 1 := by
          rw [List.length_drop]
          omega
        rw [ih g _ _ pop (by omega) (by omega), ih g _ _ pop (by omega) (by omega)]

/-- With fuel `a.length`, `matchSum` satisfies the difflib recursion on the
matching blocks exactly. -/
theorem matchSum_eq (a b : List Char) (pop : Char → Bool) :
    matchSum a b pop =
      if (flm a b pop).2.2 = 0 then 0
      else
        (flm a b pop).2.2 +
          matchSum (a.take (flm a b pop).1) (b.take (flm a b pop).2.1) pop +
          matchSum (a.drop ((flm a b pop).1 + (flm a b pop).2.2))
            (b.drop ((flm a b pop).2.1 + (flm a b pop).2.2)) pop := by
  unfold matchSum
  cases hl : a.length with
  | zero =>
    have ha : a = [] := List.length_eq_zero.mp hl
    subst ha
    simp [matchSumF, flm_nil]
  | succ n =>
    simp only [matchSumF]
    by_cases hk : (flm a b pop).2.2 = 0
    · rw [if_pos hk, if_pos hk]
    · rw [if_neg hk, if_neg hk]
      have hb := flm_bounds a b pop hk
      rw [hl] at hb
      have htake : (a.take (flm a b pop).1).length ≤ n := by
        rw [List.length_take]
        omega
      have hdrop : (a.drop ((flm a b pop).1 + (flm a b pop).2.2)).length ≤ n := by
        rw [List.length_drop, hl]
        omega
      rw [matchSumF_congr n _ _ _ pop htake (le_refl _),
        matchSumF_congr n _ _ _ pop hdrop (le_refl _)]

/-! ### The matcher: search_products -/

/-- Lowercased rendering of a string (pdata["name"].lower()). -/
def lowerStr (s : String) : String := String.mk (pyLower s.data)

/-- name_to_pid: lowercased display name -> product id, in catalog order.
The twenty lowercased names are pairwise distinct, so the dict comprehension
of the source never overwrites an entry and first-match lookup agrees with it. -/
def nameToPid : List (String × String) :=
  CATALOG.map fun pe => (lowerStr pe.2.name, pe.1)

/-- all_names: the keys of name_to_pid, in order. -/
def allNames : List String := nameToPid.map Prod.fst

/-- Total matched characters M of SequenceMatcher(None, x, qn): seq1 is the
candidate catalog name, seq2 is the normalized query (which feeds b2j and the
autojunk table), exactly as get_close_matches assigns them. -/
def matchM (x : String) (qn : List Char) : Nat :=
  matchSum x.data qn (isPopular qn)

/-- The cutoff test ratio(x, qn) >= 0.4. ratio is 2M/T with
T = len(x) + len(qn); over the rationals 2M/T >= 2/5 iff 5M >= T. The float
computation 2.0*M/T >= 0.4 decides exactly like this rational comparison:
IEEE division is correctly rounded and monotone, and distinct rationals with
the small denominators occurring here differ by far more than one ulp, so
rounding cannot cross the cutoff. The same argument covers the quick_ratio
and real_quick_ratio filters of get_close_matches: both are upper bounds of
ratio, hence they never exclude a candidate whose ratio meets the cutoff. -/
def meetsCutoff (x : String) (qn : List Char) : Bool :=
  decide (x.data.length + qn.length ≤ 5 * matchM x qn)

/-- Python string comparison: lexicographic on code points. (Defined here
because the builtin String order does not reduce in the kernel.) -/
def listCharLt : List Char → List Char → Bool
  | [], [] => false
  | [], _ :: _ => true
  | _ :: _, [] => false
  | x :: xs, y :: ys => if x = y then listCharLt xs ys else decide (x < y)

/-- heapq.nlargest compares the (ratio, name) tuples: ratios first, compared
here exactly by cross multiplication (distinct ratios of the short strings
involved never collide as floats), then the names, larger string first. -/
def betterCand (qn : List Char) (x y : String) : Bool :=
  decide (matchM y qn * (x.data.length + qn.length) <
      matchM x qn * (y.data.length + qn.length)) ||
    (decide (matchM y qn * (x.data.length + qn.length) =
        matchM x qn * (y.data.length + qn.length)) &&
      listCharLt y.data x.data)

/-- The candidate loop of get_close_matches(qn, names, n=1, cutoff=0.4): keep
the better of the current best and the next cutoff-passing name. -/
def bcmAux (qn : List Char) : List String → Option String → Option String
  | [], best => best
  | x :: xs, best =>
    if meetsCutoff x qn then
      match best with
      | none => bcmAux qn xs (some x)
      | some y =>
        if betterCand qn x y then bcmAux qn xs (some x) else bcmAux qn xs (some y)
    else bcmAux qn xs best

/-- difflib.get_close_matches(qn, names, n=1, cutoff=0.4), returning the single
best scoring name meeting the cutoff, if any. -/
def bestCloseMatch (qn : List Char) (names : List String) : Option String :=
  bcmAux qn names none

/-- `SearchResult` response model. -/
structure SearchResult where
  query : String
  found : Bool
  product : Option Product
deriving DecidableEq, Repr

/-- `BulkSearchResponse` response model. -/
structure BulkSearchResponse where
  results : List SearchResult
  not_found : List String
deriving DecidableEq, Repr

/-- Resolve one normalized nonempty query: exact id match into the catalog
first, then the fuzzy name match. The none fallbacks after a successful fuzzy
match are unreachable: the winner is a key of name_to_pid and its value is a
catalog key (this is proved where needed, not assumed). -/
def matchQuery (qn : List Char) : Option Product :=
  match dictGet CATALOG (String.mk qn) with
  | some e => some (productOf (String.mk qn) e)
  | none =>
    match bestCloseMatch qn allNames with
    | none => none
    | some nm =>
      match dictGet nameToPid nm with
      | none => none
      | some pid =>
        match dictGet CATALOG pid with
        | none => none
        | some e => some (productOf pid e)

/-- The per-query loop of search_products: queries blank after normalization
are skipped, every other query becomes a SearchResult and, when unresolved,
also an entry of not_found; both lists keep the query order and record the
original query string. -/
def processQueries : List String → List SearchResult × List String
  | [] => ([], [])
  | q :: rest =>
    if normalize q = [] then processQueries rest
    else
      match matchQuery (normalize q) with
      | some p =>
        ((⟨q, true, some p⟩ : SearchResult) :: (processQueries rest).1,
          (processQueries rest).2)
      | none =>
        ((⟨q, false, none⟩ : SearchResult) :: (processQueries rest).1,
          q :: (processQueries rest).2)

/-- GET /products/search: an empty query list is rejected with a 400,
otherwise the bulk response is returned. -/
def searchProducts (queries : List String) : Except ApiError BulkSearchResponse :=
  if queries = [] then Except.error ApiError.validationError
  else Except.ok ⟨(processQueries queries).1, (processQueries queries).2⟩

/-- Projection of a search call to (query, found, matched product id). -/
def searchView (queries : List String) :
    Except ApiError (List (String × Bool × Option String)) :=
  (searchProducts queries).map fun resp =>
    resp.results.map fun r => (r.query, r.found, r.product.map Product.id)

/-- Projection of a search call to the found flags of its results. -/
def foundFlags (queries : List String) : Except ApiError (List Bool) :=
  (searchProducts queries).map fun resp => resp.results.map SearchResult.found

/-! ### Candidate-loop lemmas -/

theorem bcmAux_ne_none (qn : List Char) :
    ∀ (names : List String) (best : Option String), best ≠ none →
      bcmAux qn names best ≠ none := by
  intro names
  induction names with
  | nil => intro best h; exact h
  | cons x xs ih =>
    intro best h
    cases best with
    | none => exact absurd rfl h
    | some y =>
      by_cases hm : meetsCutoff x qn
      · by_cases hb : betterCand qn x y
        · have : bcmAux qn (x :: xs) (some y) = bcmAux qn xs (some x) := by
            simp [bcmAux, hm, hb]
          rw [this]
          exact ih _ (by simp)
        · have : bcmAux qn (x :: xs) (some y) = bcmAux qn xs (some y) := by
            simp [bcmAux, hm, hb]
          rw [this]
          exact ih _ (by simp)
      · have : bcmAux qn (x :: xs) (some y) = bcmAux qn xs (some y) := by
          simp [bcmAux, hm]
        rw [this]
        exact ih _ h

theorem bcmAux_eq_none_iff (qn : List Char) :
    ∀ (names : List String) (best : Option String),
      bcmAux qn names best = none ↔
        (best = none ∧ ∀ x ∈ names, meetsCutoff x qn = false) := by
  intro names
  induction names with
  | nil => intro best; simp [bcmAux]
  | cons x xs ih =>
    intro best
    constructor
    · intro h
      by_cases hm : meetsCutoff x qn
      · exfalso
        cases best with
        | none =>
          exact bcmAux_ne_none qn xs (some x) (by simp)
            (by simpa [bcmAux, hm] using h)
        | some y =>
          by_cases hb : betterCand qn x y
          · exact bcmAux_ne_none qn xs (some x) (by simp)
              (by simpa [bcmAux, hm, hb] using h)
          · exact bcmAux_ne_none qn xs (some y) (by simp)
              (by simpa [bcmAux, hm, hb] using h)
      · have h' : bcmAux qn xs best = none := by
          cases best with
          | none => simpa [bcmAux, hm] using h
          | some y => simpa [bcmAux, hm] using h
        obtain ⟨h1, h2⟩ := (ih best).mp h'
        refine ⟨h1, ?_⟩
        intro z hz
        rcases List.mem_cons.mp hz with rfl | hz'
        · exact Bool.eq_false_iff.mpr hm
        · exact h2 z hz'
    · rintro ⟨h1, h2⟩
      have hm : meetsCutoff x qn = false := h2 x (List.mem_cons_self _ _)
      have hstep : bcmAux qn (x :: xs) best = bcmAux qn xs best := by
        cases best with
        | none => simp [bcmAux, hm]
        | some y => simp [bcmAux, hm]
      rw [hstep]
      exact (ih best).mpr ⟨h1, fun z hz => h2 z (List.mem_cons_of_mem _ hz)⟩

theorem bcmAux_mem (qn : List Char) :
    ∀ (names : List String) (best : Option String) (y : String),
      bcmAux qn names best = some y → best = some y ∨ y ∈ names := by
  intro names
  induction names with
  | nil => intro best y h; exact Or.inl h
  | cons x xs ih =>
    intro best y h
    by_cases hm : meetsCutoff x qn
    · cases best with
      | none =>
        have h' : bcmAux qn xs (some x) = some y := by simpa [bcmAux, hm] using h
        rcases ih _ y h' with h1 | h1
        · injection h1 with h1
          exact Or.inr (by rw [← h1]; exact List.mem_cons_self _ _)
        · exact Or.inr (List.mem_cons_of_mem _ h1)
      | some z =>
        by_cases hb : betterCand qn x z
        · have h' : bcmAux qn xs (some x) = some y := by
            simpa [bcmAux, hm, hb] using h
          rcases ih _ y h' with h1 | h1
          · injection h1 with h1
            exact Or.inr (by rw [← h1]; exact List.mem_cons_self _ _)
          · exact Or.inr (List.mem_cons_of_mem _ h1)
        · have h' : bcmAux qn xs (some z) = some y := by
            simpa [bcmAux, hm, hb] using h
          rcases ih _ y h' with h1 | h1
          · exact Or.inl h1
          · exact Or.inr (List.mem_cons_of_mem _ h1)
    · have h' : bcmAux qn xs best = some y := by
        cases best with
        | none => simpa [bcmAux, hm] using h
        | some z => simpa [bcmAux, hm] using h
      rcases ih _ y h' with h1 | h1
      · exact Or.inl h1
      · exact Or.inr (List.mem_cons_of_mem _ h1)

/-- Every value of name_to_pid is a catalog key. -/
theorem nameToPid_value_isSome {nm pid : String}
    (h : dictGet nameToPid nm = some pid) : (dictGet CATALOG pid).isSome := by
  have hmem := dictGet_mem h
  unfold nameToPid at hmem
  rcases List.mem_map.mp hmem with ⟨pe, hpe, heq⟩
  have hpid : pe.1 = pid := congrArg Prod.snd heq
  exact dictGet_isSome_iff.mpr (List.mem_map.mpr ⟨pe, hpe, hpid⟩)

/-- When the normalized query is no catalog id but some name meets the cutoff,
the matcher resolves the query to a product. -/
theorem matchQuery_isSome_of_meets {qn : List Char}
    (hid : dictGet CATALOG (String.mk qn) = none)
    (hex : ∃ nm ∈ allNames, meetsCutoff nm qn = true) :
    ∃ p, matchQuery qn = some p := by
  unfold matchQuery
  rw [hid]
  dsimp only
  cases hb : bestCloseMatch qn allNames with
  | none =>
    exfalso
    rcases hex with ⟨nm, hmem, hm⟩
    have hf := ((bcmAux_eq_none_iff qn allNames none).mp hb).2 nm hmem
    rw [hm] at hf
    simp at hf
  | some nm =>
    dsimp only
    have hmemN : nm ∈ allNames := by
      rcases bcmAux_mem qn allNames none nm hb with h | h
      · simp at h
      · exact h
    have hpidSome : (dictGet nameToPid nm).isSome := by
      apply dictGet_isSome_iff.mpr
      exact hmemN
    cases hp : dictGet nameToPid nm with
    | none => rw [hp] at hpidSome; simp at hpidSome
    | some pid =>
      dsimp only
      have hcat := nameToPid_value_isSome hp
      cases hc : dictGet CATALOG pid with
      | none => rw [hc] at hcat; simp at hcat
      | some e =>
        dsimp only
        exact ⟨productOf pid e, rfl⟩

/-- When the normalized query is no catalog id and every name scores below the
cutoff, the matcher leaves the query unresolved. -/
theorem matchQuery_eq_none_of_below {qn : List Char}
    (hid : dictGet CATALOG (String.mk qn) = none)
    (hall : ∀ nm ∈ allNames, meetsCutoff nm qn = false) :
    matchQuery qn = none := by
  unfold matchQuery
  rw [hid]
  dsimp only
  unfold bestCloseMatch
  rw [(bcmAux_eq_none_iff qn allNames none).mpr ⟨rfl, hall⟩]

/-! ### Claim theorems about the matcher -/

/-- The per-query loop keeps found/product consistent and not_found equal to
the in-order queries of the unresolved results. -/
theorem processQueries_invariants (qs : List String) :
    (∀ r ∈ (processQueries qs).1, r.found = true ↔ r.product ≠ none) ∧
    (processQueries qs).2 =
      ((processQueries qs).1.filter fun r => !r.found).map SearchResult.query := by
  induction qs with
  | nil => simp [processQueries]
  | cons q rest ih =>
    by_cases hq : normalize q = []
    · simpa [processQueries, hq] using ih
    · cases hm : matchQuery (normalize q) with
      | some p =>
        simp only [processQueries, if_neg hq, hm]
        constructor
        · intro r hr
          rcases List.mem_cons.mp hr with rfl | hr'
          · simp
          · exact ih.1 r hr'
        · simpa using ih.2
      | none =>
        simp only [processQueries, if_neg hq, hm]
        constructor
        · intro r hr
          rcases List.mem_cons.mp hr with rfl | hr'
          · simp
          · exact ih.1 r hr'
        · simpa using ih.2

/-- C7: in every successful search response, found is true exactly when a
product is attached, and not_found lists, in order, exactly the original
query strings of the results with found = false. -/
theorem search_found_product_invariants (qs : List String)
    (resp : BulkSearchResponse) (h : searchProducts qs = Except.ok resp) :
    (∀ r ∈ resp.results, r.found = true ↔ r.product ≠ none) ∧
    resp.not_found =
      (resp.results.filter fun r => !r.found).map SearchResult.query := by
  unfold searchProducts at h
  by_cases hq : qs = []
  · rw [if_pos hq] at h
    cases h
  · rw [if_neg hq] at h
    injection h with h
    rw [← h]
    exact processQueries_invariants qs

set_option maxRecDepth 40000 in
/-- C7 witness at a concrete input. -/
theorem search_found_product_invariants_witness :
    searchProducts ["concrete_bag", "qq"] =
      Except.ok ⟨[⟨"concrete_bag", true,
          some (productOf "concrete_bag" ⟨"Concrete Mix 60lb", "bag", 575⟩)⟩,
        ⟨"qq", false, none⟩], ["qq"]⟩ ∧
    ((∀ r ∈ (⟨[⟨"concrete_bag", true,
          some (productOf "concrete_bag" ⟨"Concrete Mix 60lb", "bag", 575⟩)⟩,
        ⟨"qq", false, none⟩], ["qq"]⟩ : BulkSearchResponse).results,
        r.found = true ↔ r.product ≠ none) ∧
      (⟨[⟨"concrete_bag", true,
          some (productOf "concrete_bag" ⟨"Concrete Mix 60lb", "bag", 575⟩)⟩,
        ⟨"qq", false, none⟩], ["qq"]⟩ : BulkSearchResponse).not_found =
        ((⟨[⟨"concrete_bag", true,
            some (productOf "concrete_bag" ⟨"Concrete Mix 60lb", "bag", 575⟩)⟩,
          ⟨"qq", false, none⟩], ["qq"]⟩ : BulkSearchResponse).results.filter
            fun r => !r.found).map SearchResult.query) := by
  exact ⟨by decide, search_found_product_invariants ["concrete_bag", "qq"] _ (by decide)⟩

/-- C6: queries that are blank after normalization contribute nothing to the
bulk results and nothing to not_found; the remaining queries are processed
exactly as if the blank ones were absent. -/
theorem blank_queries_skipped (qs : List String) :
    processQueries qs =
      processQueries (qs.filter fun q => !(normalize q).isEmpty) := by
  induction qs with
  | nil => rfl
  | cons q rest ih =>
    by_cases hq : normalize q = []
    · have hE : (!(normalize q).isEmpty) = false := by
        simp [hq]
      simp only [processQueries, if_pos hq, List.filter_cons, hE]
      exact ih
    · have hE : (!(normalize q).isEmpty) = true := by
        simp [List.isEmpty_iff, hq]
      simp only [List.filter_cons, hE, if_pos]
      simp only [processQueries, if_neg hq]
      rw [ih]

set_option maxRecDepth 40000 in
/-- C3: every catalog identifier, used as the single query, resolves to its
own product with found = true. -/
theorem catalog_id_resolves (pid : String) (h : (dictGet CATALOG pid).isSome) :
    searchView [pid] = Except.ok [(pid, true, some pid)] := by
  have hmem : pid ∈ CATALOG.map Prod.fst := dictGet_isSome_iff.mp h
  have hall : ∀ x ∈ CATALOG.map Prod.fst,
      searchView [x] = Except.ok [(x, true, some x)] := by decide
  exact hall pid hmem

set_option maxRecDepth 40000 in
/-- C3 witness at a concrete input. -/
theorem catalog_id_resolves_witness :
    (dictGet CATALOG "brick_clay").isSome = true ∧
    searchView ["brick_clay"] = Except.ok [("brick_clay", true, some "brick_clay")] :=
  ⟨by decide, catalog_id_resolves "brick_clay" (by decide)⟩

/-- C5: for a query that is nonempty after normalization and is no catalog
identifier, a similarity score of exactly 0.4 against some catalog name
(5M = len(name) + len(query), the exact form of 2M/T = 0.4) yields a match,
and scores strictly below 0.4 against every catalog name leave the query
unresolved, recorded with found = false and listed in not_found. -/
theorem similarity_cutoff_boundary (q : String)
    (hne : normalize q ≠ [])
    (hid : dictGet CATALOG (String.mk (normalize q)) = none) :
    ((∃ nm ∈ allNames,
        5 * matchM nm (normalize q) = nm.data.length + (normalize q).length) →
      foundFlags [q] = Except.ok [true]) ∧
    ((∀ nm ∈ allNames,
        5 * matchM nm (normalize q) < nm.data.length + (normalize q).length) →
      searchProducts [q] = Except.ok ⟨[⟨q, false, none⟩], [q]⟩) := by
  constructor
  · rintro ⟨nm, hmem, hsc⟩
    have hmeets : meetsCutoff nm (normalize q) = true := by
      simp only [meetsCutoff, decide_eq_true_eq]
      omega
    obtain ⟨p, hp⟩ := matchQuery_isSome_of_meets hid ⟨nm, hmem, hmeets⟩
    unfold foundFlags searchProducts
    rw [if_neg (by simp : ¬([q] : List String) = [])]
    simp [processQueries, hne, hp, Except.map]
  · intro hall
    have hnone : matchQuery (normalize q) = none := by
      apply matchQuery_eq_none_of_below hid
      intro nm hmem
      simp only [meetsCutoff, decide_eq_false_iff_not]
      have := hall nm hmem
      omega
    unfold searchProducts
    rw [if_neg (by simp : ¬([q] : List String) = [])]
    simp [processQueries, hne, hnone]

set_option maxRecDepth 40000 in
/-- C5 witness: "claxx" scores exactly 0.4 against "clay brick"
(M = 3, T = 15) and is matched; "qqqqq" scores below 0.4 against every
catalog name and lands in not_found. -/
theorem similarity_cutoff_boundary_witness :
    (normalize "claxx" ≠ [] ∧
      dictGet CATALOG (String.mk (normalize "claxx")) = none ∧
      "clay brick" ∈ allNames ∧
      5 * matchM "clay brick" (normalize "claxx") =
        "clay brick".data.length + (normalize "claxx").length) ∧
    foundFlags ["claxx"] = Except.ok [true] ∧
    (normalize "qqqqq" ≠ [] ∧
      dictGet CATALOG (String.mk (normalize "qqqqq")) = none) ∧
    searchProducts ["qqqqq"] = Except.ok ⟨[⟨"qqqqq", false, none⟩], ["qqqqq"]⟩ :=
  ⟨⟨by decide, by decide, by decide, by decide⟩,
    (similarity_cutoff_boundary "claxx" (by decide) (by decide)).1
      ⟨"clay brick", by decide, by decide⟩,
    ⟨by decide, by decide⟩,
    (similarity_cutoff_boundary "qqqqq" (by decide) (by decide)).2 (by decide)⟩

/-! ### C4: the lowercased display name of every product is matched, and wins

One evaluation lemma per product (the fuzzy scoring of a full-length name
against all twenty catalog names is a sizable kernel computation). -/

set_option maxRecDepth 40000 in
theorem c4val_concrete_bag :
    searchView [lowerStr "Concrete Mix 60lb"] =
      Except.ok [(lowerStr "Concrete Mix 60lb", true, some "concrete_bag")] := by
  decide

set_option maxRecDepth 40000 in
theorem c4val_plywood_sheet :
    searchView [lowerStr "Plywood 3/4in 4x8"] =
      Except.ok [(lowerStr "Plywood 3/4in 4x8", true, some "plywood_sheet")] := by
  decide

set_option maxRecDepth 40000 in
theorem c4val_lumber_2x4 :
    searchView [lowerStr "Lumber 2x4x8 SPF"] =
      Except.ok [(lowerStr "Lumber 2x4x8 SPF", true, some "lumber_2x4")] := by
  decide

set_option maxRecDepth 40000 in
theorem c4val_drywall_panel :
    searchView [lowerStr "Drywall 1/2in 4x8"] =
      Except.ok [(lowerStr "Drywall 1/2in 4x8", true, some "drywall_panel")] := by
  decide

set_option maxRecDepth 40000 in
theorem c4val_rebar_10ft :
    searchView [lowerStr "Rebar #4 10ft"] =
      Except.ok [(lowerStr "Rebar #4 10ft", true, some "rebar_10ft")] := by
  decide

set_option maxRecDepth 40000 in
theorem c4val_brick_clay :
    searchView [lowerStr "Clay Brick"] =
      Except.ok [(lowerStr "Clay Brick", true, some "brick_clay")] := by
  decide

set_option maxRecDepth 40000 in
theorem c4val_mortar_bag :
    searchView [lowerStr "Mortar Mix 60lb"] =
      Except.ok [(lowerStr "Mortar Mix 60lb", true, some "mortar_bag")] := by
  decide

set_option maxRecDepth 40000 in
theorem c4val_insulation_roll :
    searchView [lowerStr "Fiberglass Insulation R-13"] =
      Except.ok [(lowerStr "Fiberglass Insulation R-13", true, some "insulation_roll")] := by
  decide

set_option maxRecDepth 40000 in
theorem c4val_roof_shingle :
    searchView [lowerStr "Asphalt Shingles Bundle"] =
      Except.ok [(lowerStr "Asphalt Shingles Bundle", true, some "roof_shingle")] := by
  decide

set_option maxRecDepth 40000 in
theorem c4val_galv_nails :
    searchView [lowerStr "Galvanized Nails 1lb"] =
      Except.ok [(lowerStr "Galvanized Nails 1lb", true, some "galv_nails")] := by
  decide

set_option maxRecDepth 40000 in
theorem c4val_wood_screws :
    searchView [lowerStr "Wood Screws 1lb"] =
      Except.ok [(lowerStr "Wood Screws 1lb", true, some "wood_screws")] := by
  decide

set_option maxRecDepth 40000 in
theorem c4val_paint_gallon :
    searchView [lowerStr "Interior Paint White"] =
      Except.ok [(lowerStr "Interior Paint White", true, some "paint_gallon")] := by
  decide

set_option maxRecDepth 40000 in
theorem c4val_primer_gallon :
    searchView [lowerStr "Primer Sealer"] =
      Except.ok [(lowerStr "Primer Sealer", true, some "primer_gallon")] := by
  decide

set_option maxRecDepth 40000 in
theorem c4val_acrylic_caulk :
    searchView [lowerStr "Acrylic Caulk 10oz"] =
      Except.ok [(lowerStr "Acrylic Caulk 10oz", true, some "acrylic_caulk")] := by
  decide

set_option maxRecDepth 40000 in
theorem c4val_pvc_pipe_10ft :
    searchView [lowerStr "PVC Pipe 3/4in 10ft"] =
      Except.ok [(lowerStr "PVC Pipe 3/4in 10ft", true, some "pvc_pipe_10ft")] := by
  decide

set_option maxRecDepth 40000 in
theorem c4val_copper_pipe_10ft :
    searchView [lowerStr "Copper Pipe 1/2in 10ft"] =
      Except.ok [(lowerStr "Copper Pipe 1/2in 10ft", true, some "copper_pipe_10ft")] := by
  decide

set_option maxRecDepth 40000 in
theorem c4val_electrical_cable :
    searchView [lowerStr "NM-B Cable 12/2 50ft"] =
      Except.ok [(lowerStr "NM-B Cable 12/2 50ft", true, some "electrical_cable")] := by
  decide

set_option maxRecDepth 40000 in
theorem c4val_duplex_outlet :
    searchView [lowerStr "Duplex Outlet 15A"] =
      Except.ok [(lowerStr "Duplex Outlet 15A", true, some "duplex_outlet")] := by
  decide

set_option maxRecDepth 40000 in
theorem c4val_toggle_switch :
    searchView [lowerStr "Toggle Light Switch"] =
      Except.ok [(lowerStr "Toggle Light Switch", true, some "toggle_switch")] := by
  decide

set_option maxRecDepth 40000 in
theorem c4val_led_fixture :
    searchView [lowerStr "LED Ceiling Fixture"] =
      Except.ok [(lowerStr "LED Ceiling Fixture", true, some "led_fixture")] := by
  decide

/-- C4: for every catalog product, the singleton query holding its display
name lower-cased resolves with found = true to that very product: the exact
name equality scores ratio 1, which meets the cutoff and strictly beats every
other (non-identical) candidate. -/
theorem exact_name_match_wins (pid : String) (e : CatalogEntry)
    (h : (pid, e) ∈ CATALOG) :
    searchView [lowerStr e.name] =
      Except.ok [(lowerStr e.name, true, some pid)] := by
  fin_cases h
  · exact c4val_concrete_bag
  · exact c4val_plywood_sheet
  · exact c4val_lumber_2x4
  · exact c4val_drywall_panel
  · exact c4val_rebar_10ft
  · exact c4val_brick_clay
  · exact c4val_mortar_bag
  · exact c4val_insulation_roll
  · exact c4val_roof_shingle
  · exact c4val_galv_nails
  · exact c4val_wood_screws
  · exact c4val_paint_gallon
  · exact c4val_primer_gallon
  · exact c4val_acrylic_caulk
  · exact c4val_pvc_pipe_10ft
  · exact c4val_copper_pipe_10ft
  · exact c4val_electrical_cable
  · exact c4val_duplex_outlet
  · exact c4val_toggle_switch
  · exact c4val_led_fixture

set_option maxRecDepth 40000 in
/-- C4 witness at a concrete input. -/
theorem exact_name_match_wins_witness :
    (("brick_clay", (⟨"Clay Brick", "each", 55⟩ : CatalogEntry)) ∈ CATALOG) ∧
    searchView [lowerStr "Clay Brick"] =
      Except.ok [(lowerStr "Clay Brick", true, some "brick_clay")] :=
  ⟨by decide, exact_name_match_wins "brick_clay" ⟨"Clay Brick", "each", 55⟩ (by decide)⟩

end VapiDemo
